import Mathlib

/-!
Verification of the Trail-Analysis preprocessing pipeline.

This file gives a shallow embedding of the ingestion-and-enrichment
pipeline of `src/trail_utils.py` and of the derived analytics of
`src/app.py`, and proves the specified properties about it.

Modelling conventions:
* a pandas Series (column) is a `List (Option ℚ)`; `none` models a
  missing value (`NaN`), `some v` a finite numeric value;
* a pandas DataFrame is a `Frame`: an index (timestamps read as
  rational seconds, `none` for `NaT`) together with an ordered
  association list of named columns;
* Python exceptions are modelled with `Except`: `PErr.parse` stands for
  the `ValueError` raised on an unparseable FIT container,
  `PErr.empty` for the `ValueError` raised on a record-less container,
  and `PErr.keyError c` for a pandas `KeyError` on column `c`;
* the external `fitparse` decoder is abstracted as the `Except`-valued
  input of `load_fit`: `.error msg` when `FitFile` raises, `.ok recs`
  when it yields the record messages `recs`.
-/

namespace TrailAnalysis

/-- A column of a DataFrame: list of cell values, `none` modelling NaN. -/
abbrev Col := List (Option ℚ)

/-- Lift a binary rational operation to NaN-propagating cell values,
exactly as pandas elementwise arithmetic propagates NaN. -/
def opt2 (f : ℚ → ℚ → ℚ) : Option ℚ → Option ℚ → Option ℚ
  | some a, some b => some (f a b)
  | _, _ => none

/-- Elementwise binary operation between two aligned columns. -/
def zipOpt (f : ℚ → ℚ → ℚ) (xs ys : Col) : Col :=
  List.zipWith (opt2 f) xs ys

/-- Model of `Series.diff()`: first entry NaN, then successive
differences, NaN whenever either operand is NaN. -/
def diffList (xs : Col) : Col :=
  (List.range xs.length).map (fun i =>
    match i with
    | 0 => none
    | Nat.succ j =>
      match xs.get? j, xs.get? (j + 1) with
      | some (some a), some (some b) => some (b - a)
      | _, _ => none)

/-- Model of `Series.replace(0, np.nan)`: exact zeros become missing. -/
def replaceZeroNan (xs : Col) : Col :=
  xs.map (fun x =>
    match x with
    | some v => if v = 0 then none else some v
    | none => none)

/-- Model of `Series.rolling(window=w, center=True).mean()` with the
default `min_periods` (= `w`): the window labelled at row `i` covers the
`w` rows ending at `i + (w-1)/2`; a truncated window or any NaN inside
the window yields NaN. -/
def rollMeanC (w : Nat) (xs : Col) : Col :=
  (List.range xs.length).map (fun i =>
    if w ≤ i + (w - 1) / 2 + 1 ∧ i + (w - 1) / 2 < xs.length then
      let win := (xs.drop (i + (w - 1) / 2 + 1 - w)).take w
      if win.all Option.isSome then some ((win.filterMap id).sum / (w : ℚ)) else none
    else none)

/-- Model of `Series.clip(lo, hi)`; NaN passes through. -/
def clipCol (lo hi : ℚ) (xs : Col) : Col :=
  xs.map (Option.map (fun v => max lo (min v hi)))

/-- Model of `Series.fillna(q)`. -/
def fillna (q : ℚ) (xs : Col) : Col :=
  xs.map (fun x => some (x.getD q))

/-- Index and value of the last non-missing cell of a column. -/
def lastSomePair (xs : Col) : Option (Nat × ℚ) :=
  xs.enum.foldl (fun acc p =>
    match p.2 with
    | some v => some (p.1, v)
    | none => acc) none

/-- Index and value of the first non-missing cell of a column. -/
def firstSomePair (xs : Col) : Option (Nat × ℚ) :=
  (xs.enum.find? (fun p => p.2.isSome)).bind (fun p => p.2.map (fun v => (p.1, v)))

/-- One cell of `Series.interpolate(method='linear')` (default
`limit_direction='forward'`): a missing cell strictly between two valid
cells is linearly interpolated by position, a missing cell after the
last valid cell is padded with that value, and a missing cell before the
first valid cell stays missing. -/
def interpOne (xs : Col) (i : Nat) : Option ℚ :=
  match xs.get? i with
  | some (some v) => some v
  | some none =>
    match lastSomePair (xs.take i), firstSomePair (xs.drop (i + 1)) with
    | some jv, some kv =>
      some (jv.2 + (kv.2 - jv.2) * ((i : ℚ) - (jv.1 : ℚ)) / (((kv.1 + i + 1 : ℕ) : ℚ) - (jv.1 : ℚ)))
    | some jv, none => some jv.2
    | none, _ => none
  | none => none

/-- Model of `Series.interpolate(method='linear')`. -/
def interpolateL (xs : Col) : Col :=
  (List.range xs.length).map (interpOne xs)

/-- Forward fill pass carrying the last valid value seen so far. -/
def ffillGo : Option ℚ → Col → Col
  | _, [] => []
  | carry, none :: t => carry :: ffillGo carry t
  | _, some v :: t => some v :: ffillGo (some v) t

/-- Model of `Series.ffill()`. -/
def ffillL (xs : Col) : Col := ffillGo none xs

/-- Model of `Series.bfill()`: forward fill on the reversed column. -/
def bfillL (xs : Col) : Col := (ffillGo none xs.reverse).reverse

/-- The gap-filling operator applied to each candidate channel in
`load_fit` (src/trail_utils.py line 52):
`interpolate(method='linear').ffill().bfill()`. -/
def fillSeries (xs : Col) : Col := bfillL (ffillL (interpolateL xs))

/-- Model of `Series.median()` on non-missing values: sort, take the
middle element, or the mean of the two middle elements for an even
count; `none` (NaN) for an empty sequence of valid values. -/
def medianVals (l : List ℚ) : Option ℚ :=
  let s := List.insertionSort (· ≤ ·) l
  if s.length = 0 then none
  else if s.length % 2 = 1 then s.get? (s.length / 2)
  else opt2 (fun a b => (a + b) / 2) (s.get? (s.length / 2 - 1)) (s.get? (s.length / 2))

/-- Median of a column, skipping missing values as pandas does. -/
def medianOpt (xs : Col) : Option ℚ := medianVals (xs.filterMap id)

/-- Model of numpy/pandas `round()` to an integer: round half to even. -/
def roundHE (q : ℚ) : ℤ :=
  if q - ⌊q⌋ < 1 / 2 then ⌊q⌋
  else if (1 : ℚ) / 2 < q - ⌊q⌋ then ⌊q⌋ + 1
  else if ⌊q⌋ % 2 = 0 then ⌊q⌋ else ⌊q⌋ + 1

/-- A DataFrame: an index plus an ordered association list of columns. -/
structure Frame where
  index : Col
  cols : List (String × Col)
deriving DecidableEq

/-- Look a column up by name in an association list of columns. -/
def lookupL (cols : List (String × Col)) (n : String) : Option Col :=
  (cols.find? (fun c => c.1 == n)).map (fun c => c.2)

/-- Model of pandas column assignment `df[n] = v`: replace the column in
place when the name exists, otherwise append it at the end. -/
def setL (cols : List (String × Col)) (n : String) (v : Col) : List (String × Col) :=
  if cols.any (fun c => c.1 == n) then
    cols.map (fun c => if c.1 == n then (n, v) else c)
  else cols ++ [(n, v)]

/-- Column lookup on a frame, `df[n]` (also `n in df.columns` via
`Option.isSome`). -/
def lookupCol (df : Frame) (n : String) : Option Col := lookupL df.cols n

/-- Model of `n in df.columns`. -/
def hasCol (df : Frame) (n : String) : Bool := (lookupCol df n).isSome

/-- Column assignment on a frame. -/
def setCol (df : Frame) (n : String) (v : Col) : Frame :=
  ⟨df.index, setL df.cols n v⟩

/-- Model of `df.drop([n], axis=1)`. -/
def dropCol (df : Frame) (n : String) : Frame :=
  ⟨df.index, df.cols.filter (fun c => !(c.1 == n))⟩

/-- Model of `df.empty`: true when either axis has length zero. -/
def frameEmpty (df : Frame) : Bool := df.index.isEmpty || df.cols.isEmpty

/-- Keep the entries of a list selected by a boolean mask. -/
def maskFilter {α : Type} (xs : List α) (mask : List Bool) : List α :=
  (List.zip xs mask).filterMap (fun p => if p.2 then some p.1 else none)

/-- Model of boolean-mask row selection `df[mask]`. -/
def filterRows (df : Frame) (mask : List Bool) : Frame :=
  ⟨maskFilter df.index mask, df.cols.map (fun c => (c.1, maskFilter c.2 mask))⟩

/-- One decoded FIT record message: field name to numeric value
(timestamps read as seconds). -/
abbrev FitRecord := List (String × ℚ)

/-- Column names in order of first appearance across the records, the
order `pd.DataFrame(list_of_dicts)` uses. -/
def recordKeys (recs : List FitRecord) : List String :=
  recs.foldl (fun acc r =>
    r.foldl (fun acc2 p => if p.1 ∈ acc2 then acc2 else acc2 ++ [p.1]) acc) []

/-- Model of `pd.DataFrame(data_points)` in `load_fit`
(src/trail_utils.py line 29): one row per record, one column per
observed field, missing fields becoming NaN, default integer index. -/
def buildFrame (recs : List FitRecord) : Frame :=
  ⟨(List.range recs.length).map (fun i => some (i : ℚ)),
   (recordKeys recs).map (fun k =>
     (k, recs.map (fun r => (r.find? (fun p => p.1 == k)).map (fun p => p.2))))⟩

/-- The semicircle-to-degree factor `180 / 2**31` of
src/trail_utils.py line 38. -/
def conversion_factor : ℚ := 180 / 2 ^ 31

/-- Model of the coordinate-decoding block of `load_fit`
(src/trail_utils.py lines 37-41): when both raw position columns are
present, add `latitude` and `longitude` (raw value times
`conversion_factor`) and drop the raw columns; otherwise do nothing. -/
def convertPositions (df : Frame) : Frame :=
  match lookupCol df "position_lat", lookupCol df "position_long" with
  | some plat, some plong =>
    let df1 := setCol df "latitude" (plat.map (Option.map (fun v => v * conversion_factor)))
    let df2 := setCol df1 "longitude" (plong.map (Option.map (fun v => v * conversion_factor)))
    dropCol (dropCol df2 "position_lat") "position_long"
  | _, _ => df

/-- Model of the timestamp block of `load_fit` (src/trail_utils.py
lines 44-46): move a `timestamp` column, when present, into the index. -/
def setTimestampIndex (df : Frame) : Frame :=
  match lookupCol df "timestamp" with
  | some ts => ⟨ts, df.cols.filter (fun c => !(c.1 == "timestamp"))⟩
  | none => df

/-- The candidate channels of the gap filler (src/trail_utils.py
lines 49-50). -/
def gap_fix_cols : List String :=
  ["heart_rate", "enhanced_speed", "accumulated_power", "power",
   "enhanced_altitude", "step_length", "cadence", "latitude", "longitude"]

/-- Model of the gap-filling loop of `load_fit` (src/trail_utils.py
lines 49-52): apply `fillSeries` to each candidate channel present. -/
def gapFillFrame (df : Frame) : Frame :=
  gap_fix_cols.foldl (fun d c =>
    match lookupCol d c with
    | some xs => setCol d c (fillSeries xs)
    | none => d) df

/-- Model of src/trail_utils.py lines 55-56: `speed_kmh`. -/
def addSpeedKmh (df : Frame) : Frame :=
  match lookupCol df "enhanced_speed" with
  | some xs => setCol df "speed_kmh" (xs.map (Option.map (fun v => v * 3.6)))
  | none => df

/-- Model of src/trail_utils.py lines 58-59: `delta_alt`. -/
def addDeltaAlt (df : Frame) : Frame :=
  match lookupCol df "enhanced_altitude" with
  | some xs => setCol df "delta_alt" (diffList xs)
  | none => df

/-- Errors surfaced by the pipeline, with the exact Python behaviour
they model. -/
inductive PErr where
  /-- The `ValueError` of src/trail_utils.py line 20 (unparseable FIT). -/
  | parse (msg : String) : PErr
  /-- The `ValueError` of src/trail_utils.py line 110 (no records). -/
  | empty : PErr
  /-- A pandas `KeyError` from reading an absent column. -/
  | keyError (colName : String) : PErr
deriving DecidableEq

/-- Message carried by each modelled error, as the Python code words it. -/
def errMsg : PErr → String
  | .parse m => "Failed to parse FIT file: " ++ m
  | .empty => "No records found in FIT file after parsing; please check the file"
  | .keyError c => c

/-- Model of the slope-estimation block of `load_fit`
(src/trail_utils.py lines 61-66), which runs whenever `distance` is
present. Reading `df['delta_alt']` raises a `KeyError` when that column
was never created (no `enhanced_altitude` channel and no such record
field). -/
def addSlope (df : Frame) : Except PErr Frame :=
  match lookupCol df "distance" with
  | none => Except.ok df
  | some dist =>
    let dd := replaceZeroNan (diffList dist)
    match lookupCol df "delta_alt" with
    | none => Except.error (PErr.keyError "delta_alt")
    | some da =>
      let df1 := setCol df "delta_dist" dd
      let sr := (zipOpt (fun a b => a / b) da dd).map (Option.map (fun v => v * 100))
      let df2 := setCol df1 "slope_raw" sr
      let ss := rollMeanC 25 sr
      let df3 := setCol df2 "slope_smooth" ss
      Except.ok (setCol df3 "slope_smooth" (fillna 0 (clipCol (-50) 30 ss)))

/-- Model of `load_fit` (src/trail_utils.py lines 10-68). The argument
is the outcome of the external `fitparse` decoder; an empty decoded
table is returned as is (lines 31-34). -/
def load_fit (decoded : Except String (List FitRecord)) : Except PErr Frame :=
  match decoded with
  | Except.error msg => Except.error (PErr.parse msg)
  | Except.ok recs =>
    let df := buildFrame recs
    if frameEmpty df then Except.ok df
    else
      addSlope (addDeltaAlt (addSpeedKmh (gapFillFrame (setTimestampIndex (convertPositions df)))))

/-- Model of `calculate_energy_cost` (src/trail_utils.py lines 71-74):
polynomial metabolic cost of a slope given in percent. -/
def calculate_energy_cost (slope_percent : ℚ) : ℚ :=
  let g := slope_percent / 100
  (155.4 * g ^ 5 - 30.4 * g ^ 4 - 43.3 * g ^ 3 + 46.3 * g ^ 2 + 19.5 * g + 3.6) / 3.6

/-- Model of `enrich_energy` (src/trail_utils.py lines 77-89): add
`energy_cost` when `slope_smooth` is present, then `gap_speed` when both
`enhanced_speed` and `energy_cost` are present. -/
def enrich_energy (df : Frame) : Frame :=
  let df1 :=
    match lookupCol df "slope_smooth" with
    | some ss => setCol df "energy_cost" (ss.map (Option.map calculate_energy_cost))
    | none => df
  match lookupCol df1 "enhanced_speed", lookupCol df1 "energy_cost" with
  | some es, some ec => setCol df1 "gap_speed" (zipOpt (fun a b => a * b) es ec)
  | _, _ => df1

/-- Model of `ensure_cadence_spm` (src/trail_utils.py lines 92-100):
double the cadence channel exactly when its median is below 100. -/
def ensure_cadence_spm (df : Frame) : Frame :=
  match lookupCol df "cadence" with
  | some xs =>
    if (match medianOpt xs with
        | some m => decide (m < 100)
        | none => false) then
      setCol df "cadence" (xs.map (Option.map (fun v => v * 2)))
    else df
  | none => df

/-- Model of `preprocess_all` (src/trail_utils.py lines 103-114), the
pipeline entry point. -/
def preprocess_all (decoded : Except String (List FitRecord)) : Except PErr Frame :=
  match load_fit decoded with
  | Except.error e => Except.error e
  | Except.ok df =>
    if frameEmpty df then Except.error PErr.empty
    else Except.ok (ensure_cadence_spm (enrich_energy df))

/-- Column read `df[n]` in the analytics: `KeyError` when absent. -/
def col_or_err (df : Frame) (n : String) : Except String Col :=
  match lookupCol df n with
  | some xs => Except.ok xs
  | none => Except.error n

/-- Model of `plot_effort_vs_terrain` (src/app.py lines 54-91).
`Except.error c` models an uncaught exception on column `c`,
`Except.ok none` the `return None` of the unavailability check
(line 69), and `Except.ok (some ())` a returned figure (the Plotly
construction of lines 72-91 never raises and is presentation-only, so
the figure itself is modelled as `()`). -/
def plot_effort_vs_terrain (df : Frame) : Except String (Option Unit) := do
  let dfe := df
  let dfe ←
    (if hasCol dfe "time_min" then pure dfe
     else
       match dfe.index.head? with
       | none => Except.error "index"
       | some t0 =>
         pure (setCol dfe "time_min"
           (dfe.index.map (fun t => opt2 (fun a b => (a - b) / 60) t t0))))
  let dfe ←
    (if hasCol dfe "efficiency_effort" then pure dfe
     else do
       let alt ← col_or_err dfe "enhanced_altitude"
       let dfe := setCol dfe "delta_alt" (diffList alt)
       let gp := (diffList alt).map (Option.map (fun v => max v 0))
       let dfe := setCol dfe "gain_pos" gp
       let spd ← col_or_err dfe "enhanced_speed"
       let realSpd := spd.map (Option.map (fun v => v * 60))
       let bonus := gp.map (Option.map (fun g => g * 10 * 60))
       let eff := zipOpt (fun a b => a + b) realSpd bonus
       let dfe := setCol dfe "effort_speed_m_min" eff
       let hr ← col_or_err dfe "heart_rate"
       let mask := List.zipWith (fun h e =>
         (match h with | some hv => decide (40 < hv) | none => false) &&
         (match e with | some ev => decide (50 < ev) | none => false)) hr eff
       let dfe := filterRows dfe mask
       let eff2 ← col_or_err dfe "effort_speed_m_min"
       let hr2 ← col_or_err dfe "heart_rate"
       let effc := zipOpt (fun a b => a / b) eff2 hr2
       let dfe := setCol dfe "efficiency_effort" effc
       pure (setCol dfe "ef_smooth" (rollMeanC 900 effc)))
  if frameEmpty dfe || !hasCol dfe "ef_smooth" || !hasCol dfe "enhanced_altitude" then
    pure none
  else
    pure (some ())

/-- Rows of `df_pace` kept by the speed filter of `plot_pace_heatmap`
(src/app.py lines 125-126): each sample is a row of the enriched table
restricted to the two consumed columns, a pair (`gap_speed` in m/s,
`slope_smooth` in percent); `gap_kmh = gap_speed * 3.6` must exceed 3. -/
def paceKept (samples : List (ℚ × ℚ)) : List (ℚ × ℚ) :=
  samples.filter (fun p => decide (3 < p.1 * 3.6))

/-- The `slope_bin` and `gap_pace` columns of `plot_pace_heatmap`
(src/app.py lines 127-128): pace is `60 / gap_kmh`, the bin is
`slope_smooth` rounded to the nearest integer (half to even). -/
def paceWithBin (samples : List (ℚ × ℚ)) : List (ℤ × ℚ) :=
  (paceKept samples).map (fun p => (roundHE p.2, 60 / (p.1 * 3.6)))

/-- The rows of `df_viz` (src/app.py line 129): bins kept in [-40, 40]. -/
def paceViz (samples : List (ℚ × ℚ)) : List (ℤ × ℚ) :=
  (paceWithBin samples).filter (fun q => decide (-40 ≤ q.1) && decide (q.1 ≤ 40))

/-- Model of the pace-by-gradient analytic of `plot_pace_heatmap`
(src/app.py lines 124-130): the median `gap_pace` per populated
`slope_bin` (pandas `groupby` sorts the bin keys). -/
def paceByGradient (samples : List (ℚ × ℚ)) : List (ℤ × Option ℚ) :=
  (List.insertionSort (· ≤ ·) ((paceViz samples).map (fun q => q.1)).dedup).map
    (fun b => (b, medianVals (((paceViz samples).filter
      (fun q => decide (q.1 = b))).map (fun q => q.2))))

/-! Association-list and frame lemmas. -/

theorem lookupL_replace_self (n : String) (v : Col) :
    ∀ cols : List (String × Col), cols.any (fun c => c.1 == n) = true →
    lookupL (cols.map (fun c => if c.1 == n then (n, v) else c)) n = some v := by
  intro cols
  induction cols with
  | nil => intro h; simp at h
  | cons c t ih =>
    intro h
    rw [List.map_cons]
    by_cases hc : c.1 = n
    · have hif : (if c.1 == n then (n, v) else c) = (n, v) := by simp [hc]
      rw [hif]
      unfold lookupL
      simp only [List.find?_cons, beq_self_eq_true]
      rfl
    · have hc' : (c.1 == n) = false := beq_eq_false_iff_ne.mpr hc
      have hif : (if c.1 == n then (n, v) else c) = c := by simp [hc']
      have ht : t.any (fun c => c.1 == n) = true := by
        rw [List.any_cons, hc'] at h
        simpa using h
      rw [hif]
      unfold lookupL
      simp only [List.find?_cons, hc']
      exact ih ht

theorem lookupL_setL_self (cols : List (String × Col)) (n : String) (v : Col) :
    lookupL (setL cols n v) n = some v := by
  unfold setL
  by_cases h : cols.any (fun c => c.1 == n) = true
  · rw [if_pos h]
    exact lookupL_replace_self n v cols h
  · rw [if_neg h]
    have hn : cols.find? (fun c => c.1 == n) = none := by
      rw [List.find?_eq_none]
      intro x hx hpx
      exact h (List.any_eq_true.mpr ⟨x, hx, hpx⟩)
    unfold lookupL
    rw [List.find?_append, hn]
    simp [List.find?]

theorem lookupL_setL_ne (cols : List (String × Col)) (n m : String) (v : Col)
    (hmn : m ≠ n) : lookupL (setL cols n v) m = lookupL cols m := by
  have hnm : (n == m) = false := beq_eq_false_iff_ne.mpr (Ne.symm hmn)
  unfold setL
  by_cases h : cols.any (fun c => c.1 == n) = true
  · rw [if_pos h]
    clear h
    induction cols with
    | nil => rfl
    | cons c t ih =>
      rw [List.map_cons]
      by_cases hc : c.1 = n
      · have hif : (if c.1 == n then (n, v) else c) = (n, v) := by simp [hc]
        have hcm : (c.1 == m) = false := by
          rw [hc]
          exact hnm
        rw [hif]
        unfold lookupL
        simp only [List.find?_cons, hnm, hcm]
        exact ih
      · have hc' : (c.1 == n) = false := beq_eq_false_iff_ne.mpr hc
        have hif : (if c.1 == n then (n, v) else c) = c := by simp [hc']
        rw [hif]
        by_cases hcm : c.1 = m
        · have hcm' : (c.1 == m) = true := by simp [hcm]
          unfold lookupL
          simp only [List.find?_cons, hcm']
        · have hcm' : (c.1 == m) = false := beq_eq_false_iff_ne.mpr hcm
          unfold lookupL
          simp only [List.find?_cons, hcm']
          exact ih
  · rw [if_neg h]
    unfold lookupL
    rw [List.find?_append]
    cases hf : cols.find? (fun c => c.1 == m) with
    | some a => simp [hf]
    | none => simp [hf, List.find?, hnm]

theorem mem_setL (cols : List (String × Col)) (n : String) (v : Col) :
    ∀ c ∈ setL cols n v, c = (n, v) ∨ (c.1 ≠ n ∧ c ∈ cols) := by
  intro c hc
  unfold setL at hc
  by_cases h : cols.any (fun x => x.1 == n) = true
  · rw [if_pos h] at hc
    rcases List.mem_map.mp hc with ⟨a, ha, hae⟩
    by_cases han : a.1 = n
    · left
      rw [← hae]
      simp [han]
    · right
      have han' : (a.1 == n) = false := beq_eq_false_iff_ne.mpr han
      rw [← hae]
      simp [han']
      exact ⟨han, ha⟩
  · rw [if_neg h] at hc
    rcases List.mem_append.mp hc with h1 | h1
    · right
      refine ⟨fun he => h (List.any_eq_true.mpr ⟨c, h1, by simp [he]⟩), h1⟩
    · left
      simpa using h1

theorem lookupL_filter_ne (cols : List (String × Col)) (n m : String)
    (hmn : m ≠ n) :
    lookupL (cols.filter (fun c => !(c.1 == n))) m = lookupL cols m := by
  induction cols with
  | nil => rfl
  | cons c t ih =>
    rw [List.filter_cons]
    by_cases hcn : c.1 = n
    · have h2 : (c.1 == m) = false := by
        rw [hcn]
        exact beq_eq_false_iff_ne.mpr (Ne.symm hmn)
      rw [if_neg (by simp [hcn])]
      unfold lookupL
      simp only [List.find?_cons, h2]
      exact ih
    · rw [if_pos (by simp [beq_eq_false_iff_ne.mpr hcn])]
      by_cases hcm : c.1 = m
      · have hcm' : (c.1 == m) = true := by simp [hcm]
        unfold lookupL
        simp only [List.find?_cons, hcm']
      · have hcm' : (c.1 == m) = false := beq_eq_false_iff_ne.mpr hcm
        unfold lookupL
        simp only [List.find?_cons, hcm']
        exact ih

theorem lookupL_filter_self (cols : List (String × Col)) (n : String) :
    lookupL (cols.filter (fun c => !(c.1 == n))) n = none := by
  unfold lookupL
  have : (cols.filter (fun c => !(c.1 == n))).find? (fun c => c.1 == n) = none := by
    rw [List.find?_eq_none]
    intro x hx
    have := (List.mem_filter.mp hx).2
    simp at this
    simp [this]
  rw [this]
  rfl

theorem lookupCol_setCol_self (df : Frame) (n : String) (v : Col) :
    lookupCol (setCol df n v) n = some v := lookupL_setL_self df.cols n v

theorem lookupCol_setCol_ne (df : Frame) (n m : String) (v : Col) (hmn : m ≠ n) :
    lookupCol (setCol df n v) m = lookupCol df m := lookupL_setL_ne df.cols n m v hmn

theorem lookupCol_dropCol_ne (df : Frame) (n m : String) (hmn : m ≠ n) :
    lookupCol (dropCol df n) m = lookupCol df m := lookupL_filter_ne df.cols n m hmn

theorem hasCol_dropCol_self (df : Frame) (n : String) :
    hasCol (dropCol df n) n = false := by
  unfold hasCol lookupCol dropCol
  rw [lookupL_filter_self]
  rfl

/-! Claim theorems: coordinate decoding (C5, C10) and the energy cost
model (C7). -/

/-- C7: the energy cost model is a pure function that, for every grade
fraction g, returns (155.4 g^5 - 30.4 g^4 - 43.3 g^3 + 46.3 g^2 +
19.5 g + 3.6) / 3.6 with no domain clamping (the identity holds for
every rational grade), and at grade 0 it returns exactly 1. The source
function takes the slope in percent, so grade fraction g corresponds to
the argument g * 100. -/
theorem energy_cost_spec :
    (∀ g : ℚ, calculate_energy_cost (g * 100) =
      (155.4 * g ^ 5 - 30.4 * g ^ 4 - 43.3 * g ^ 3 + 46.3 * g ^ 2 + 19.5 * g + 3.6) / 3.6) ∧
    calculate_energy_cost 0 = 1 := by
  constructor
  · intro g
    have h100 : g * 100 / 100 = g := by field_simp
    simp only [calculate_energy_cost, h100]
  · simp only [calculate_energy_cost]
    norm_num

/-- C5: for a table containing both raw position columns, coordinate
decoding computes each degree value elementwise as raw * 180 / 2^31
(raw 2^30, the integer 1 <<< 30, maps to 90 degrees), sets exactly the
two columns latitude and longitude, removes exactly the two raw integer
columns, changes no other column (nor the index), and is a no-op when
the source columns are absent. -/
theorem convert_positions_spec (df : Frame) (plat plong : Col)
    (hlat : lookupCol df "position_lat" = some plat)
    (hlong : lookupCol df "position_long" = some plong) :
    lookupCol (convertPositions df) "latitude"
        = some (plat.map (Option.map (fun v => v * conversion_factor))) ∧
    lookupCol (convertPositions df) "longitude"
        = some (plong.map (Option.map (fun v => v * conversion_factor))) ∧
    hasCol (convertPositions df) "position_lat" = false ∧
    hasCol (convertPositions df) "position_long" = false ∧
    (convertPositions df).index = df.index ∧
    (∀ n : String, n ≠ "latitude" → n ≠ "longitude" →
      n ≠ "position_lat" → n ≠ "position_long" →
      lookupCol (convertPositions df) n = lookupCol df n) ∧
    (∀ c ∈ (convertPositions df).cols,
      c.1 = "latitude" ∨ c.1 = "longitude" ∨
      (c.1 ≠ "position_lat" ∧ c.1 ≠ "position_long" ∧ c ∈ df.cols)) ∧
    ((1073741824 : ℚ) * conversion_factor = 90) ∧
    (∀ df2 : Frame, lookupCol df2 "position_lat" = none →
      lookupCol df2 "position_long" = none → convertPositions df2 = df2) := by
  have hred : convertPositions df =
      dropCol (dropCol
        (setCol (setCol df "latitude" (plat.map (Option.map (fun v => v * conversion_factor))))
          "longitude" (plong.map (Option.map (fun v => v * conversion_factor))))
        "position_lat") "position_long" := by
    unfold convertPositions
    rw [hlat, hlong]
  refine ⟨?_, ?_, ?_, ?_, ?_, ?_, ?_, ?_, ?_⟩
  · rw [hred, lookupCol_dropCol_ne _ _ _ (by decide), lookupCol_dropCol_ne _ _ _ (by decide),
      lookupCol_setCol_ne _ _ _ _ (by decide), lookupCol_setCol_self]
  · rw [hred, lookupCol_dropCol_ne _ _ _ (by decide), lookupCol_dropCol_ne _ _ _ (by decide),
      lookupCol_setCol_self]
  · rw [hred]
    unfold hasCol
    rw [lookupCol_dropCol_ne _ _ _ (by decide)]
    have := hasCol_dropCol_self
      (setCol (setCol df "latitude" (plat.map (Option.map (fun v => v * conversion_factor))))
        "longitude" (plong.map (Option.map (fun v => v * conversion_factor)))) "position_lat"
    unfold hasCol at this
    exact this
  · rw [hred]
    exact hasCol_dropCol_self _ "position_long"
  · rw [hred]
    rfl
  · intro n h1 h2 h3 h4
    rw [hred, lookupCol_dropCol_ne _ _ _ h4, lookupCol_dropCol_ne _ _ _ h3,
      lookupCol_setCol_ne _ _ _ _ h2, lookupCol_setCol_ne _ _ _ _ h1]
  · intro c hc
    rw [hred] at hc
    unfold dropCol at hc
    simp only at hc
    have hc2 := List.mem_filter.mp hc
    have hlong2 : c.1 ≠ "position_long" := by
      have := hc2.2
      simpa using this
    have hc3 := List.mem_filter.mp hc2.1
    have hlat2 : c.1 ≠ "position_lat" := by
      have := hc3.2
      simpa using this
    rcases mem_setL _ _ _ c hc3.1 with h | ⟨hne1, h⟩
    · right
      left
      rw [h]
    · rcases mem_setL _ _ _ c h with h5 | ⟨hne2, h5⟩
      · left
        rw [h5]
      · right
        right
        exact ⟨hlat2, hlong2, h5⟩
  · norm_num [conversion_factor]
  · intro df2 h1 h2
    unfold convertPositions
    rw [h1, h2]

/-- Witness for C5 at a one-row table whose raw latitude is the encoded
integer 2^30 = 1073741824. -/
theorem convert_positions_spec_witness :
    lookupCol (convertPositions ⟨[some 0],
        [("position_lat", [some (1073741824 : ℚ)]), ("position_long", [some 0]),
         ("heart_rate", [some 1])]⟩) "latitude"
      = some ([some (1073741824 : ℚ)].map (Option.map (fun v => v * conversion_factor))) ∧
    hasCol (convertPositions ⟨[some 0],
        [("position_lat", [some (1073741824 : ℚ)]), ("position_long", [some 0]),
         ("heart_rate", [some 1])]⟩) "position_lat" = false ∧
    (1073741824 : ℚ) * conversion_factor = 90 := by
  have h := convert_positions_spec ⟨[some 0],
      [("position_lat", [some (1073741824 : ℚ)]), ("position_long", [some 0]),
       ("heart_rate", [some 1])]⟩
    [some (1073741824 : ℚ)] [some 0] (by decide) (by decide)
  exact ⟨h.1, h.2.2.1, h.2.2.2.2.2.2.2.1⟩

/-- C10: when exactly one of the two raw position columns is present,
coordinate decoding does nothing: the frame is returned unchanged, so no
latitude or longitude column is added and the lone raw column survives
unconverted. -/
theorem convert_positions_single_raw_noop (df : Frame)
    (h : hasCol df "position_lat" ≠ hasCol df "position_long") :
    convertPositions df = df := by
  unfold convertPositions
  unfold hasCol at h
  cases h1 : lookupCol df "position_lat" with
  | none => rfl
  | some plat =>
    cases h2 : lookupCol df "position_long" with
    | none => rfl
    | some plong =>
      exfalso
      rw [h1, h2] at h
      exact h rfl

/-- Witness for C10 at a table holding only a raw latitude column. -/
theorem convert_positions_single_raw_noop_witness :
    convertPositions ⟨[some 0], [("position_lat", [some 5]), ("heart_rate", [some 1])]⟩
      = ⟨[some 0], [("position_lat", [some 5]), ("heart_rate", [some 1])]⟩ :=
  convert_positions_single_raw_noop
    ⟨[some 0], [("position_lat", [some 5]), ("heart_rate", [some 1])]⟩ (by decide)

/-! Gap-filling lemmas (C6). -/

theorem interpolateL_length (xs : Col) : (interpolateL xs).length = xs.length := by
  simp [interpolateL]

theorem interpolateL_get?_some (xs : Col) (i : Nat) (v : ℚ)
    (h : xs.get? i = some (some v)) : (interpolateL xs).get? i = some (some v) := by
  have hlt : i < xs.length := by
    rcases List.get?_eq_some.mp h with ⟨hlt, _⟩
    exact hlt
  unfold interpolateL
  rw [List.get?_map, List.get?_range hlt]
  simp only [Option.map_some']
  unfold interpOne
  rw [h]

theorem interpolateL_of_all_some (xs : Col) (h : ∀ x ∈ xs, x.isSome = true) :
    interpolateL xs = xs := by
  apply List.ext
  intro i
  by_cases hlt : i < xs.length
  · obtain ⟨x, hx⟩ : ∃ x, xs.get? i = some x := by
      cases hg : xs.get? i with
      | none =>
        rw [List.get?_eq_none] at hg
        omega
      | some x => exact ⟨x, rfl⟩
    obtain ⟨v, hv⟩ := Option.isSome_iff_exists.mp (h x (List.get?_mem hx))
    subst hv
    rw [hx, interpolateL_get?_some xs i v hx]
  · rw [List.get?_eq_none.mpr (by rw [interpolateL_length]; omega),
      List.get?_eq_none.mpr (by omega)]

theorem foldl_enumFrom_none (ys : Col) :
    ∀ (k : Nat) (acc : Option (Nat × ℚ)), (∀ x ∈ ys, x = none) →
    (List.enumFrom k ys).foldl (fun acc p =>
      match p.2 with
      | some v => some (p.1, v)
      | none => acc) acc = acc := by
  induction ys with
  | nil =>
    intro k acc h
    rfl
  | cons y t ih =>
    intro k acc h
    have hy : y = none := h y (List.mem_cons_self _ _)
    subst hy
    exact ih (k + 1) acc (fun x hx => h x (List.mem_cons_of_mem _ hx))

theorem lastSomePair_of_all_none (ys : Col) (h : ∀ x ∈ ys, x = none) :
    lastSomePair ys = none := by
  unfold lastSomePair
  simpa [List.enum] using foldl_enumFrom_none ys 0 none h

theorem interpolateL_of_all_none (xs : Col) (h : ∀ x ∈ xs, x = none) :
    interpolateL xs = xs := by
  apply List.ext
  intro i
  by_cases hlt : i < xs.length
  · obtain ⟨x, hx⟩ : ∃ x, xs.get? i = some x := by
      cases hg : xs.get? i with
      | none =>
        rw [List.get?_eq_none] at hg
        omega
      | some x => exact ⟨x, rfl⟩
    have hxn : x = none := h x (List.get?_mem hx)
    subst hxn
    unfold interpolateL
    rw [List.get?_map, List.get?_range hlt]
    simp only [Option.map_some']
    unfold interpOne
    rw [hx, lastSomePair_of_all_none _ (fun x hx2 => h x (List.mem_of_mem_take hx2))]
  · rw [List.get?_eq_none.mpr (by rw [interpolateL_length]; omega),
      List.get?_eq_none.mpr (by omega)]

theorem ffillGo_length (carry : Option ℚ) (xs : Col) :
    (ffillGo carry xs).length = xs.length := by
  induction xs generalizing carry with
  | nil => rfl
  | cons a t ih =>
    cases a with
    | none => simp [ffillGo, ih]
    | some w => simp [ffillGo, ih]

theorem ffillGo_all_some (c : ℚ) (xs : Col) :
    ∀ y ∈ ffillGo (some c) xs, y.isSome = true := by
  induction xs generalizing c with
  | nil =>
    intro y hy
    simp [ffillGo] at hy
  | cons a t ih =>
    intro y hy
    cases a with
    | none =>
      rcases List.mem_cons.mp hy with h | h
      · rw [h]
        rfl
      · exact ih c y h
    | some w =>
      rcases List.mem_cons.mp hy with h | h
      · rw [h]
        rfl
      · exact ih w y h

theorem ffillGo_id_of_all_some (carry : Option ℚ) (xs : Col)
    (h : ∀ x ∈ xs, x.isSome = true) : ffillGo carry xs = xs := by
  induction xs generalizing carry with
  | nil => rfl
  | cons a t ih =>
    cases a with
    | none =>
      have := h none (List.mem_cons_self _ _)
      simp at this
    | some w =>
      show some w :: ffillGo (some w) t = some w :: t
      rw [ih (some w) (fun x hx => h x (List.mem_cons_of_mem _ hx))]

theorem ffillGo_none_id_of_all_none (xs : Col) (h : ∀ x ∈ xs, x = none) :
    ffillGo none xs = xs := by
  induction xs with
  | nil => rfl
  | cons a t ih =>
    have ha : a = none := h a (List.mem_cons_self _ _)
    subst ha
    show none :: ffillGo none t = none :: t
    rw [ih (fun x hx => h x (List.mem_cons_of_mem _ hx))]

theorem getLast?_cons_of_ne_nil {α : Type} (a : α) (l : List α) (h : l ≠ []) :
    (a :: l).getLast? = l.getLast? := by
  cases l with
  | nil => exact absurd rfl h
  | cons b t => exact List.getLast?_cons_cons

theorem ffillGo_getLast?_some (xs : Col) :
    ∀ carry : Option ℚ, (∃ x ∈ xs, x.isSome = true) →
    ∃ v, (ffillGo carry xs).getLast? = some (some v) := by
  induction xs with
  | nil =>
    intro carry h
    rcases h with ⟨x, hx, _⟩
    simp at hx
  | cons a t ih =>
    intro carry h
    by_cases ht : ∃ x ∈ t, x.isSome = true
    · have htne : t ≠ [] := by
        rcases ht with ⟨x, hx, _⟩
        exact List.ne_nil_of_mem hx
      have hlenne : ∀ c : Option ℚ, ffillGo c t ≠ [] := by
        intro c hc
        have := ffillGo_length c t
        rw [hc] at this
        exact htne (List.eq_nil_of_length_eq_zero this.symm)
      cases a with
      | none =>
        obtain ⟨v, hv⟩ := ih carry ht
        refine ⟨v, ?_⟩
        show (carry :: ffillGo carry t).getLast? = some (some v)
        rw [getLast?_cons_of_ne_nil _ _ (hlenne carry)]
        exact hv
      | some w =>
        obtain ⟨v, hv⟩ := ih (some w) ht
        refine ⟨v, ?_⟩
        show (some w :: ffillGo (some w) t).getLast? = some (some v)
        rw [getLast?_cons_of_ne_nil _ _ (hlenne (some w))]
        exact hv
    · obtain ⟨x, hx, hxs⟩ := h
      rcases List.mem_cons.mp hx with rfl | hxt
      · obtain ⟨w, rfl⟩ := Option.isSome_iff_exists.mp hxs
        have hall : ∀ y ∈ some w :: ffillGo (some w) t, y.isSome = true := by
          intro y hy
          rcases List.mem_cons.mp hy with h1 | h1
          · rw [h1]
            rfl
          · exact ffillGo_all_some w t y h1
        have hne : (some w :: ffillGo (some w) t) ≠ [] := by simp
        obtain ⟨v, hv⟩ := Option.isSome_iff_exists.mp
          (hall _ (List.getLast_mem hne))
        refine ⟨v, ?_⟩
        show (some w :: ffillGo (some w) t).getLast? = some (some v)
        rw [List.getLast?_eq_getLast _ hne, hv]
      · exact absurd ⟨x, hxt, hxs⟩ ht

theorem ffillGo_head_some_all (ws : Col) (v : ℚ) (h : ws.head? = some (some v)) :
    ∀ y ∈ ffillGo none ws, y.isSome = true := by
  cases ws with
  | nil => simp at h
  | cons a t =>
    have ha : a = some v := by simpa using h
    subst ha
    intro y hy
    rcases List.mem_cons.mp hy with h1 | h1
    · rw [h1]
      rfl
    · exact ffillGo_all_some v t y h1

theorem fillSeries_total (xs : Col) (h : ∃ x ∈ xs, x.isSome = true) :
    ∀ y ∈ fillSeries xs, y.isSome = true := by
  obtain ⟨x, hx, hxs⟩ := h
  obtain ⟨w, rfl⟩ := Option.isSome_iff_exists.mp hxs
  obtain ⟨i, hi⟩ := List.mem_iff_get?.mp hx
  have h1 : (interpolateL xs).get? i = some (some w) := interpolateL_get?_some xs i w hi
  have h2 : ∃ x ∈ interpolateL xs, x.isSome = true := ⟨some w, List.get?_mem h1, rfl⟩
  obtain ⟨v, hv⟩ := ffillGo_getLast?_some (interpolateL xs) none h2
  intro y hy
  unfold fillSeries bfillL ffillL at hy
  rw [List.mem_reverse] at hy
  apply ffillGo_head_some_all _ v _ y hy
  rw [List.head?_reverse]
  exact hv

theorem fillSeries_id_of_all_some (xs : Col) (h : ∀ x ∈ xs, x.isSome = true) :
    fillSeries xs = xs := by
  unfold fillSeries bfillL ffillL
  rw [interpolateL_of_all_some xs h, ffillGo_id_of_all_some none xs h,
    ffillGo_id_of_all_some none xs.reverse (fun x hx => h x (List.mem_reverse.mp hx)),
    List.reverse_reverse]

theorem fillSeries_id_of_all_none (xs : Col) (h : ∀ x ∈ xs, x = none) :
    fillSeries xs = xs := by
  unfold fillSeries bfillL ffillL
  rw [interpolateL_of_all_none xs h, ffillGo_none_id_of_all_none xs h,
    ffillGo_none_id_of_all_none xs.reverse (fun x hx => h x (List.mem_reverse.mp hx)),
    List.reverse_reverse]

/-- C6: the gap-filling operator (linear interpolation, then ffill, then
bfill, applied by `gapFillFrame` to each present candidate channel) is
idempotent, leaves a channel with no missing values unchanged, leaves no
missing value in a channel having at least one non-missing sample, and
leaves a wholly-missing channel wholly missing (unchanged). -/
theorem gap_fill_spec (xs : Col) :
    fillSeries (fillSeries xs) = fillSeries xs ∧
    ((∀ x ∈ xs, x.isSome = true) → fillSeries xs = xs) ∧
    ((∃ x ∈ xs, x.isSome = true) → ∀ y ∈ fillSeries xs, y.isSome = true) ∧
    ((∀ x ∈ xs, x = none) → fillSeries xs = xs) := by
  refine ⟨?_, fillSeries_id_of_all_some xs, fillSeries_total xs, fillSeries_id_of_all_none xs⟩
  by_cases h : ∃ x ∈ xs, x.isSome = true
  · exact fillSeries_id_of_all_some _ (fillSeries_total xs h)
  · have h' : ∀ x ∈ xs, x = none := by
      intro x hx
      rcases x with _ | v
      · rfl
      · exact absurd ⟨some v, hx, rfl⟩ h
    simp only [fillSeries_id_of_all_none xs h']

/-- Witness for C6 at three concrete channels: one with an interior gap,
one fully valid, one wholly missing. -/
theorem gap_fill_spec_witness :
    ((∃ x ∈ ([none, some 1, none] : Col), x.isSome = true) ∧
      ∀ y ∈ fillSeries [none, some 1, none], y.isSome = true) ∧
    ((∀ x ∈ ([some 2, some 3] : Col), x.isSome = true) ∧
      fillSeries [some 2, some 3] = [some 2, some 3]) ∧
    ((∀ x ∈ ([none, none] : Col), x = none) ∧
      fillSeries [none, none] = [none, none]) := by
  refine ⟨⟨?_, (gap_fill_spec [none, some 1, none]).2.2.1 ?_⟩,
    ⟨?_, (gap_fill_spec [some 2, some 3]).2.1 ?_⟩,
    ⟨?_, (gap_fill_spec [none, none]).2.2.2 ?_⟩⟩
  · exact ⟨some 1, by decide, rfl⟩
  · exact ⟨some 1, by decide, rfl⟩
  · decide
  · decide
  · decide
  · decide

/-! Slope-estimator lemmas (C4). -/

theorem clip_fillna_mem (ss : Col) :
    ∀ y ∈ fillna 0 (clipCol (-50) 30 ss), ∃ v, y = some v ∧ -50 ≤ v ∧ v ≤ 30 := by
  intro y hy
  unfold fillna clipCol at hy
  rw [List.mem_map] at hy
  obtain ⟨x, hx, rfl⟩ := hy
  rw [List.mem_map] at hx
  obtain ⟨z, hz, rfl⟩ := hx
  cases z with
  | none => exact ⟨0, rfl, by norm_num, by norm_num⟩
  | some v =>
    exact ⟨max (-50) (min v 30), rfl, le_max_left _ _,
      max_le (by norm_num) (min_le_right _ _)⟩

theorem fillna_clip_get? (ss : Col) (i : Nat) (h : ss.get? i = some none) :
    (fillna 0 (clipCol (-50) 30 ss)).get? i = some (some 0) := by
  unfold fillna clipCol
  rw [List.get?_map, List.get?_map, h]
  rfl

/-- C4: whenever the slope estimator runs (the `distance` channel is
present, so `addSlope` executes the slope block and succeeds), every
value of the resulting `slope_smooth` column is a non-missing value in
[-50, 30], and every position where the centered 25-sample rolling mean
of `slope_raw` is undefined (insufficient smoothing context) holds
exactly 0. -/
theorem slope_smooth_spec (df df2 : Frame) (sr ys : Col)
    (hrun : addSlope df = Except.ok df2)
    (hdist : hasCol df "distance" = true)
    (hsr : lookupCol df2 "slope_raw" = some sr)
    (hss : lookupCol df2 "slope_smooth" = some ys) :
    (∀ y ∈ ys, ∃ v, y = some v ∧ -50 ≤ v ∧ v ≤ 30) ∧
    (∀ i, (rollMeanC 25 sr).get? i = some none → ys.get? i = some (some 0)) := by
  obtain ⟨dist, hd⟩ : ∃ d, lookupCol df "distance" = some d := by
    unfold hasCol at hdist
    exact Option.isSome_iff_exists.mp hdist
  unfold addSlope at hrun
  rw [hd] at hrun
  cases hda : lookupCol df "delta_alt" with
  | none =>
    simp only [hda] at hrun
    exact Except.noConfusion hrun
  | some da =>
    simp only [hda, Except.ok.injEq] at hrun
    subst hrun
    rw [lookupCol_setCol_self] at hss
    injection hss with hys
    subst hys
    rw [lookupCol_setCol_ne _ _ _ _ (by decide), lookupCol_setCol_ne _ _ _ _ (by decide),
      lookupCol_setCol_self] at hsr
    injection hsr with hsr2
    subst hsr2
    exact ⟨clip_fillna_mem _, fun i hi => fillna_clip_get? _ i hi⟩

/-- Witness for C4 at a one-row table: the sole smoothing window is
incomplete, so the slope estimate is the conventional 0, inside
[-50, 30]. -/
theorem slope_smooth_spec_witness :
    (∀ y ∈ ([some 0] : Col), ∃ v, y = some v ∧ -50 ≤ v ∧ v ≤ 30) ∧
    (∀ i, (rollMeanC 25 [none]).get? i = some none →
      ([some 0] : Col).get? i = some (some 0)) :=
  slope_smooth_spec
    ⟨[some 0], [("distance", [some 7]), ("delta_alt", [some 1])]⟩
    ⟨[some 0], [("distance", [some 7]), ("delta_alt", [some 1]),
      ("delta_dist", [none]), ("slope_raw", [none]), ("slope_smooth", [some 0])]⟩
    [none] [some 0] rfl (by decide) (by decide) (by decide)

/-! Median lemmas (C8). -/

theorem orderedInsert_double (a : ℚ) (l : List ℚ) :
    List.orderedInsert (· ≤ ·) (a * 2) (l.map (fun x => x * 2)) =
    (List.orderedInsert (· ≤ ·) a l).map (fun x => x * 2) := by
  induction l with
  | nil => rfl
  | cons b t ih =>
    by_cases hab : a ≤ b
    · have h2 : a * 2 ≤ b * 2 := by linarith
      simp [List.orderedInsert, hab, h2]
    · have h2 : ¬ a * 2 ≤ b * 2 := by
        intro hx
        exact hab (by linarith)
      simp [List.orderedInsert, hab, h2, ih]

theorem insertionSort_double (l : List ℚ) :
    List.insertionSort (· ≤ ·) (l.map (fun x => x * 2)) =
    (List.insertionSort (· ≤ ·) l).map (fun x => x * 2) := by
  induction l with
  | nil => rfl
  | cons a t ih => simp [List.insertionSort, ih, orderedInsert_double]

theorem medianVals_double (l : List ℚ) :
    medianVals (l.map (fun x => x * 2)) = (medianVals l).map (fun x => x * 2) := by
  simp only [medianVals]
  rw [insertionSort_double, List.length_map]
  by_cases h0 : (List.insertionSort (· ≤ ·) l).length = 0
  · simp [h0]
  · rw [if_neg h0, if_neg h0]
    by_cases hodd : (List.insertionSort (· ≤ ·) l).length % 2 = 1
    · rw [if_pos hodd, if_pos hodd, List.get?_map]
    · rw [if_neg hodd, if_neg hodd, List.get?_map, List.get?_map]
      cases (List.insertionSort (· ≤ ·) l).get? ((List.insertionSort (· ≤ ·) l).length / 2 - 1) with
      | none => simp [opt2]
      | some a =>
        cases (List.insertionSort (· ≤ ·) l).get? ((List.insertionSort (· ≤ ·) l).length / 2) with
        | none => simp [opt2]
        | some b =>
          simp only [Option.map_some', opt2]
          rw [Option.some.injEq]
          ring

theorem filterMap_id_map_double (xs : Col) :
    (xs.map (Option.map (fun v => v * 2))).filterMap id
      = (xs.filterMap id).map (fun v => v * 2) := by
  induction xs with
  | nil => rfl
  | cons a t ih =>
    cases a with
    | none => simpa using ih
    | some v => simpa using ih

theorem medianOpt_double (xs : Col) :
    medianOpt (xs.map (Option.map (fun v => v * 2))) = (medianOpt xs).map (fun v => v * 2) := by
  unfold medianOpt
  rw [filterMap_id_map_double, medianVals_double]

/-- C8: cadence normalization doubles the whole cadence channel exactly
when the channel median is strictly below 100, leaves the frame
untouched otherwise, and modifies no other column (nor the index); a
channel with median m below 100 ends with median m * 2 (so 80 becomes
160), while one with median not below 100 (such as 150) is unchanged. -/
theorem cadence_normalization_spec (df : Frame) (xs : Col) (m : ℚ)
    (hx : lookupCol df "cadence" = some xs) (hm : medianOpt xs = some m) :
    (m < 100 →
      lookupCol (ensure_cadence_spm df) "cadence"
        = some (xs.map (Option.map (fun v => v * 2))) ∧
      medianOpt (xs.map (Option.map (fun v => v * 2))) = some (m * 2)) ∧
    (¬ m < 100 → ensure_cadence_spm df = df) ∧
    (∀ n : String, n ≠ "cadence" →
      lookupCol (ensure_cadence_spm df) n = lookupCol df n) ∧
    (ensure_cadence_spm df).index = df.index := by
  have hred : ensure_cadence_spm df =
      (if m < 100 then
        setCol df "cadence" (xs.map (Option.map (fun v => v * 2)))
      else df) := by
    unfold ensure_cadence_spm
    simp only [hx, hm, decide_eq_true_eq]
  refine ⟨fun hlt => ?_, fun hge => ?_, fun n hn => ?_, ?_⟩
  · rw [hred, if_pos hlt, lookupCol_setCol_self]
    refine ⟨rfl, ?_⟩
    rw [medianOpt_double, hm]
    rfl
  · rw [hred, if_neg hge]
  · rw [hred]
    by_cases hlt : m < 100
    · rw [if_pos hlt, lookupCol_setCol_ne _ _ _ _ hn]
    · rw [if_neg hlt]
  · rw [hred]
    by_cases hlt : m < 100
    · rw [if_pos hlt]
      rfl
    · rw [if_neg hlt]

/-- Witness for C8 at a cadence channel of median 80 (doubled, median
160) and one of median 150 (unchanged). -/
theorem cadence_normalization_spec_witness :
    ((80 : ℚ) < 100 ∧
      lookupCol (ensure_cadence_spm
          ⟨[some 0], [("cadence", [some 80]), ("heart_rate", [some 5])]⟩) "cadence"
        = some (([some 80] : Col).map (Option.map (fun v => v * 2))) ∧
      medianOpt (([some 80] : Col).map (Option.map (fun v => v * 2))) = some (80 * 2) ∧
      (80 : ℚ) * 2 = 160) ∧
    (¬ (150 : ℚ) < 100 ∧
      ensure_cadence_spm ⟨[some 0], [("cadence", [some 150])]⟩
        = ⟨[some 0], [("cadence", [some 150])]⟩) := by
  refine ⟨⟨by norm_num, ?_, ?_, by norm_num⟩, ⟨by norm_num, ?_⟩⟩
  · exact ((cadence_normalization_spec
      ⟨[some 0], [("cadence", [some 80]), ("heart_rate", [some 5])]⟩
      [some 80] 80 (by decide) (by decide)).1 (by norm_num)).1
  · exact ((cadence_normalization_spec
      ⟨[some 0], [("cadence", [some 80]), ("heart_rate", [some 5])]⟩
      [some 80] 80 (by decide) (by decide)).1 (by norm_num)).2
  · exact (cadence_normalization_spec ⟨[some 0], [("cadence", [some 150])]⟩
      [some 150] 150 (by decide) (by decide)).2.1 (by norm_num)

/-! Pace-by-gradient (C9). -/

/-- C9: the pace-by-gradient analytic keeps exactly the samples whose
grade-adjusted speed in km/h (gap_speed * 3.6) strictly exceeds 3.
Every output entry e has a bin e.1 in [-40, 40] populated by at least
one kept sample, and its value e.2 is the median of the pace
60 / (gap_speed * 3.6) over the kept samples whose slope_smooth rounds
to that bin; every kept sample whose rounded slope lies in [-40, 40]
populates its bin; and a sample at or below 3 km/h contributes to no
bin (dropping it leaves the output unchanged). -/
theorem pace_by_gradient_spec (samples : List (ℚ × ℚ)) :
    (∀ e ∈ paceByGradient samples,
      -40 ≤ e.1 ∧ e.1 ≤ 40 ∧
      (∃ p ∈ samples, 3 < p.1 * 3.6 ∧ roundHE p.2 = e.1) ∧
      e.2 = medianVals (((samples.filter (fun p => decide (3 < p.1 * 3.6))).filter
        (fun p => decide (roundHE p.2 = e.1))).map (fun p => 60 / (p.1 * 3.6)))) ∧
    (∀ p ∈ samples, 3 < p.1 * 3.6 → -40 ≤ roundHE p.2 → roundHE p.2 ≤ 40 →
      ∃ mv, (roundHE p.2, mv) ∈ paceByGradient samples) ∧
    (∀ (q : ℚ × ℚ) (rest : List (ℚ × ℚ)), q.1 * 3.6 ≤ 3 →
      paceByGradient (q :: rest) = paceByGradient rest) := by
  refine ⟨?_, ?_, ?_⟩
  · intro e he
    unfold paceByGradient at he
    rw [List.mem_map] at he
    obtain ⟨b', hb', heq⟩ := he
    subst heq
    rw [(List.perm_insertionSort _ _).mem_iff, List.mem_dedup, List.mem_map] at hb'
    obtain ⟨qv, hqv, hq1⟩ := hb'
    have hqv2 := hqv
    unfold paceViz at hqv2
    rw [List.mem_filter, Bool.and_eq_true] at hqv2
    obtain ⟨hqW, hcond1, hcond2⟩ := hqv2
    have hlb : -40 ≤ b' := hq1 ▸ of_decide_eq_true hcond1
    have hub : b' ≤ 40 := hq1 ▸ of_decide_eq_true hcond2
    unfold paceWithBin at hqW
    rw [List.mem_map] at hqW
    obtain ⟨p, hpk, hpq⟩ := hqW
    have hpk2 := hpk
    unfold paceKept at hpk2
    rw [List.mem_filter] at hpk2
    have hlt : 3 < p.1 * 3.6 := of_decide_eq_true hpk2.2
    have hround : roundHE p.2 = b' := by
      rw [← hq1, ← hpq]
    refine ⟨hlb, hub, ⟨p, hpk2.1, hlt, hround⟩, ?_⟩
    show medianVals (((paceViz samples).filter
        (fun q => decide (q.1 = b'))).map (fun q => q.2)) = _
    congr 1
    have hstep1 : (paceViz samples).filter (fun q => decide (q.1 = b'))
        = (paceWithBin samples).filter (fun q => decide (q.1 = b')) := by
      unfold paceViz
      rw [List.filter_filter]
      apply List.filter_congr
      intro x hx
      by_cases hxb : x.1 = b'
      · simp [hxb, hlb, hub]
      · simp [hxb]
    rw [hstep1]
    unfold paceWithBin
    rw [List.filter_map, List.map_map]
    rfl
  · intro p hp hlt hlb hub
    refine ⟨medianVals (((paceViz samples).filter
      (fun q => decide (q.1 = roundHE p.2))).map (fun q => q.2)), ?_⟩
    unfold paceByGradient
    rw [List.mem_map]
    refine ⟨roundHE p.2, ?_, rfl⟩
    rw [(List.perm_insertionSort _ _).mem_iff, List.mem_dedup, List.mem_map]
    refine ⟨(roundHE p.2, 60 / (p.1 * 3.6)), ?_, rfl⟩
    unfold paceViz
    rw [List.mem_filter]
    constructor
    · unfold paceWithBin
      rw [List.mem_map]
      refine ⟨p, ?_, rfl⟩
      unfold paceKept
      rw [List.mem_filter]
      exact ⟨hp, decide_eq_true hlt⟩
    · show (decide (-40 ≤ roundHE p.2) && decide (roundHE p.2 ≤ 40)) = true
      rw [Bool.and_eq_true]
      exact ⟨decide_eq_true hlb, decide_eq_true hub⟩
  · intro q rest hle
    have hf : decide (3 < q.1 * 3.6) = false := decide_eq_false (not_lt.mpr hle)
    have hK : paceKept (q :: rest) = paceKept rest := by
      unfold paceKept
      simp [List.filter_cons, hf]
    unfold paceByGradient paceViz paceWithBin
    rw [hK]

/-! Ingestion errors (C1) and the two pipeline defects (C2, C3). -/

/-- C1: the pipeline entry point `preprocess_all` raises a hard error on
a container that decodes but yields zero track-point records (no empty
table reaches the caller), and raises a distinct hard error on a
container that cannot be decoded at all; the two errors are different
values and carry different messages. -/
theorem preprocess_error_separation (msg : String) :
    preprocess_all (Except.error msg) = Except.error (PErr.parse msg) ∧
    preprocess_all (Except.ok []) = Except.error PErr.empty ∧
    PErr.parse msg ≠ PErr.empty ∧
    errMsg (PErr.parse msg) ≠ errMsg PErr.empty := by
  refine ⟨rfl, rfl, by simp, ?_⟩
  intro h
  rw [show errMsg (PErr.parse msg) = "Failed to parse FIT file: " ++ msg from rfl,
    show errMsg PErr.empty
      = "No records found in FIT file after parsing; please check the file" from rfl] at h
  have h2 := congrArg String.data h
  rw [String.data_append] at h2
  have h3 := congrArg List.head? h2
  simp at h3

/-- C3 is refuted by the code: on a decoded table whose records carry
only a `distance` field (so the `enhanced_altitude` optional channel is
absent), preprocessing does not complete; the slope block of `load_fit`
reads the never-created `delta_alt` column (src/trail_utils.py line 64)
and aborts with a KeyError. -/
theorem preprocess_distance_without_altitude_raises :
    preprocess_all (Except.ok [[("distance", 0)], [("distance", 5)]])
      = Except.error (PErr.keyError "delta_alt") := rfl

/-- C2 is refuted by the code: the effort-drift analytic does not
degrade gracefully when the `enhanced_altitude` column it requires is
absent: `plot_effort_vs_terrain` reads `df_eff['enhanced_altitude']`
(src/app.py line 59) before the availability check of line 69, so on a
table with a time index and a heart-rate channel but no altitude it
raises a KeyError instead of returning None. -/
theorem plot_effort_without_altitude_raises :
    plot_effort_vs_terrain ⟨[some 0], [("heart_rate", [some 100])]⟩
      = Except.error "enhanced_altitude" := rfl

end TrailAnalysis
